import Mathlib

/-!
Verification of the TaskManager persistence/search layer.

The definitions below are a shallow embedding of the repository's
localStorage service (`LocalStorageService` in `lib/localStorage.ts`,
reproduced in `src/README.md`), its date utilities (`lib/dateUtils.ts`)
and its memoization utility (`lib/performance.ts`).  JavaScript strings
are modeled as Lean `String`s over their character lists; the embedding
covers the ASCII character range (`trim`, `toLowerCase` and the
whitespace class of `/\s+/` are modeled for ASCII input, which is the
range the service's own data uses).  The runtime environment is modeled
with `window` defined (browser present) and a UTC timezone.
-/

namespace TaskManager

/-! ### JavaScript string primitives -/

/-- Whitespace class used by JavaScript `trim()` and `/\s+/` (ASCII part). -/
def isJsWs (c : Char) : Bool :=
  c.toNat == 32 || c.toNat == 9 || c.toNat == 10 || c.toNat == 13 ||
  c.toNat == 11 || c.toNat == 12

/-- Drop leading and trailing whitespace from a character list. -/
def trimChars (l : List Char) : List Char :=
  ((l.dropWhile isJsWs).reverse.dropWhile isJsWs).reverse

/-- Model of JavaScript `String.prototype.trim`. -/
def jsTrim (s : String) : String := String.mk (trimChars s.toList)

/-- Model of JavaScript `String.prototype.toLowerCase` on one ASCII character. -/
def lowerChar (c : Char) : Char :=
  if 65 ≤ c.toNat && c.toNat ≤ 90 then Char.ofNat (c.toNat + 32) else c

/-- Model of JavaScript `String.prototype.toLowerCase` (ASCII range). -/
def jsToLower (s : String) : String := String.mk (s.toList.map lowerChar)

/-- Does `hay` start with `needle`? (character-list level) -/
def startsWithL : List Char → List Char → Bool
  | _, [] => true
  | [], _ :: _ => false
  | a :: as, b :: bs => a == b && startsWithL as bs

/-- Does `hay` contain `needle` as a contiguous sublist? -/
def containsSubL : List Char → List Char → Bool
  | [], needle => needle.isEmpty
  | a :: rest, needle => startsWithL (a :: rest) needle || containsSubL rest needle

/-- Model of JavaScript `String.prototype.includes`. -/
def strIncludes (hay needle : String) : Bool := containsSubL hay.toList needle.toList

/-- Accumulator-based splitting of a character list into maximal non-whitespace
runs.  `wordsAux l acc` processes `l` with `acc` holding the (reversed)
characters of the word currently being read. -/
def wordsAux : List Char → List Char → List String
  | [], acc => if acc.isEmpty then [] else [String.mk acc.reverse]
  | c :: cs, acc =>
    if isJsWs c then
      if acc.isEmpty then wordsAux cs []
      else String.mk acc.reverse :: wordsAux cs []
    else wordsAux cs (c :: acc)

/-- Model of `s.split(/\s+/).filter((w) => w.length > 0)`: the maximal
non-whitespace runs of `s`, in order. -/
def splitWords (s : String) : List String := wordsAux s.toList []

/-! ### Decimal rendering and padding -/

/-- Decimal digit character for `n < 10`. -/
def digitChar (n : Nat) : Char := Char.ofNat (48 + n)

/-- Fuel-based decimal rendering of a natural number, most significant digit
first.  The fuel argument only bounds the recursion; `natStr` supplies enough
fuel for it never to run out. -/
def natStrAux : Nat → Nat → List Char
  | 0, _ => []
  | fuel + 1, n =>
    if n < 10 then [digitChar n]
    else natStrAux fuel (n / 10) ++ [digitChar (n % 10)]

/-- Model of `String(n)` / template interpolation of a natural number. -/
def natStr (n : Nat) : String := String.mk (natStrAux (n + 1) n)

/-- Model of `String(n).padStart(2, "0")`. -/
def padTwo (n : Nat) : String :=
  let s := natStr n
  if s.length < 2 then "0" ++ s else s

/-- Zero-pad a number to three digits (used for the milliseconds field of
`toISOString`). -/
def padThree (n : Nat) : String :=
  let s := natStr n
  if s.length = 1 then "00" ++ s else if s.length = 2 then "0" ++ s else s

/-- Zero-pad a number to four digits (used for the year field of
`toISOString`). -/
def padFour (n : Nat) : String :=
  let s := natStr n
  if 4 ≤ s.length then s
  else String.mk (List.replicate (4 - s.length) '0') ++ s

/-! ### Date model (`lib/dateUtils.ts`)

A JavaScript `Date` value is modeled by its broken-down components in the
(UTC) environment timezone.  `month0` is 0-based, mirroring `getMonth()`. -/

structure JSDate where
  year : Nat
  month0 : Nat
  day : Nat
  hour : Nat
  minute : Nat
  second : Nat
  ms : Nat
  deriving DecidableEq

/-- Model of `dateUtils.formatDateForSearch`: `${year}-${month}-${day}` with
`month = String(getMonth()+1).padStart(2,"0")` and
`day = String(getDate()).padStart(2,"0")`; the year is not padded. -/
def formatDateForSearch (d : JSDate) : String :=
  natStr d.year ++ "-" ++ padTwo (d.month0 + 1) ++ "-" ++ padTwo d.day

/-- English weekday names indexed Sunday = 0, as produced by
`toLocaleDateString("en-US", { weekday: "long" })`. -/
def weekdayName (w : Nat) : String :=
  match w with
  | 0 => "Sunday" | 1 => "Monday" | 2 => "Tuesday" | 3 => "Wednesday"
  | 4 => "Thursday" | 5 => "Friday" | _ => "Saturday"

/-- Day of week (0 = Sunday) of a Gregorian calendar date, with the month
given 1-based; Sakamoto's method.  This models the weekday the JavaScript
`Date` machinery derives from a timestamp. -/
def dayOfWeek (y m d : Nat) : Nat :=
  let t : List Nat := [0, 3, 2, 5, 0, 3, 5, 1, 4, 6, 2, 4]
  let y' := if m < 3 then y - 1 else y
  (y' + (y' / 4 - y' / 100) + y' / 400 + t.getD (m - 1) 0 + d) % 7

/-- Model of `dateUtils.getDayName`. -/
def getDayName (d : JSDate) : String :=
  weekdayName (dayOfWeek d.year (d.month0 + 1) d.day)

/-- Model of `Date.prototype.toISOString` (UTC environment, years 0–9999). -/
def toISOString (d : JSDate) : String :=
  padFour d.year ++ "-" ++ padTwo (d.month0 + 1) ++ "-" ++ padTwo d.day ++ "T" ++
  padTwo d.hour ++ ":" ++ padTwo d.minute ++ ":" ++ padTwo d.second ++ "." ++
  padThree d.ms ++ "Z"

/-- Read the decimal number formed by the leading characters of `l`. -/
def parseNatChars (l : List Char) : Nat :=
  l.foldl (fun a c => a * 10 + (c.toNat - 48)) 0

/-- Model of `new Date(isoString)` for a well-formed UTC ISO-8601 string,
date components only (which is all `matchesDateSearch` consumes). -/
def parseISODate (s : String) : JSDate :=
  let l := s.toList
  let y := parseNatChars (l.takeWhile (fun c => c ≠ '-'))
  let r1 := (l.dropWhile (fun c => c ≠ '-')).drop 1
  let m := parseNatChars (r1.takeWhile (fun c => c ≠ '-'))
  let r2 := (r1.dropWhile (fun c => c ≠ '-')).drop 1
  let d := parseNatChars (r2.takeWhile (fun c => c ≠ 'T'))
  { year := y, month0 := m - 1, day := d, hour := 0, minute := 0, second := 0, ms := 0 }

/-- Model of `dateUtils.matchesDateSearch`: format the parsed date as
`YYYY-MM-DD` and test substring containment of the query. -/
def matchesDateSearch (date searchQuery : String) : Bool :=
  strIncludes (formatDateForSearch (parseISODate date)) searchQuery

/-- The `YYYY-MM-DD` prefix of an ISO-8601 timestamp string. -/
def isoDatePart (s : String) : String := String.mk (s.toList.take 10)

/-! ### The Task data model (`types/task.ts`)

The optional `description`/`name`/`role` fields always hold strings (defaulted
to `""`) on every `Task` the service constructs, which is the representation
used here. -/

structure Task where
  id : String
  title : String
  description : String
  name : String
  role : String
  isCompleted : Bool
  createdAt : String
  updatedAt : String
  dateAdded : String
  dayAdded : String
  deriving DecidableEq

/-- Creation input accepted by `addTask` (`TaskFormData`). -/
structure TaskFormData where
  title : String
  description : Option String
  name : Option String
  role : Option String

/-- A `Partial<Task>` patch: `some v` models a key present with value `v`,
`none` a key absent from the patch object. -/
structure TaskPatch where
  id : Option String := none
  title : Option String := none
  description : Option String := none
  name : Option String := none
  role : Option String := none
  isCompleted : Option Bool := none
  createdAt : Option String := none
  updatedAt : Option String := none
  dateAdded : Option String := none
  dayAdded : Option String := none

/-! ### Service mutations (`lib/localStorage.ts`)

Each operation takes the current collection (the result of `getTasks()`)
explicitly and returns, alongside its JS return value, the resulting
collection and a flag recording whether `saveTasksImmediate` was invoked
(the durable write).  All operations are total functions: the not-found
paths raise no exception. -/

/-- Model of `addTask`.  `newId` stands for the generated
`${Date.now()}-${random}` identifier and `now` for `dateUtils.now()`.
Returns the new task, the new collection (task prepended) and the
durable-write flag (always true: `addTask` always saves immediately). -/
def addTask (taskData : TaskFormData) (newId : String) (now : JSDate)
    (tasks : List Task) : Task × List Task × Bool :=
  let newTask : Task := {
    id := newId
    title := jsTrim taskData.title
    description := (taskData.description.map jsTrim).getD ""
    name := (taskData.name.map jsTrim).getD ""
    role := (taskData.role.map jsTrim).getD ""
    isCompleted := false
    createdAt := toISOString now
    updatedAt := toISOString now
    dateAdded := formatDateForSearch now
    dayAdded := getDayName now }
  (newTask, newTask :: tasks, true)

/-- The merge `{ ...currentTask, ...updates, updatedAt: now.toISOString() }`
performed by `updateTask`. -/
def mergeTask (currentTask : Task) (updates : TaskPatch) (nowStr : String) : Task :=
  { id := updates.id.getD currentTask.id
    title := updates.title.getD currentTask.title
    description := updates.description.getD currentTask.description
    name := updates.name.getD currentTask.name
    role := updates.role.getD currentTask.role
    isCompleted := updates.isCompleted.getD currentTask.isCompleted
    createdAt := updates.createdAt.getD currentTask.createdAt
    updatedAt := nowStr
    dateAdded := updates.dateAdded.getD currentTask.dateAdded
    dayAdded := updates.dayAdded.getD currentTask.dayAdded }

/-- Model of the `hasChanges` check in `updateTask`:
`Object.keys(updates).some((key) => currentTask[key] !== updatedTask[key])`,
expanded over the ten possible keys of the patch object (`.some` over the
present keys; key order does not affect a disjunction). -/
def hasChanges (currentTask : Task) (updates : TaskPatch) (nowStr : String) : Bool :=
  let updatedTask := mergeTask currentTask updates nowStr
  (updates.id.isSome && currentTask.id != updatedTask.id) ||
  (updates.title.isSome && currentTask.title != updatedTask.title) ||
  (updates.description.isSome && currentTask.description != updatedTask.description) ||
  (updates.name.isSome && currentTask.name != updatedTask.name) ||
  (updates.role.isSome && currentTask.role != updatedTask.role) ||
  (updates.isCompleted.isSome && currentTask.isCompleted != updatedTask.isCompleted) ||
  (updates.createdAt.isSome && currentTask.createdAt != updatedTask.createdAt) ||
  (updates.updatedAt.isSome && currentTask.updatedAt != updatedTask.updatedAt) ||
  (updates.dateAdded.isSome && currentTask.dateAdded != updatedTask.dateAdded) ||
  (updates.dayAdded.isSome && currentTask.dayAdded != updatedTask.dayAdded)

/-- Model of `updateTask`: find the first task whose id matches
(`findIndex`), return `null` if none; otherwise merge, and either replace it
in place and save immediately (`hasChanges`) or return the stored task
untouched with no write.  The recursion walks the list to the `findIndex`
position and performs the in-place `tasks[taskIndex] = updatedTask`. -/
def updateTask (tasks : List Task) (taskId : String) (updates : TaskPatch)
    (nowStr : String) : Option Task × List Task × Bool :=
  match tasks with
  | [] => (none, [], false)
  | t :: ts =>
    if t.id == taskId then
      let updatedTask := mergeTask t updates nowStr
      if hasChanges t updates nowStr then (some updatedTask, updatedTask :: ts, true)
      else (some t, t :: ts, false)
    else
      let (r, ts', wrote) := updateTask ts taskId updates nowStr
      (r, t :: ts', wrote)

/-- Model of `deleteTask`: find the first task whose id matches, return
`false` if none; otherwise `splice` it out and save immediately. -/
def deleteTask (tasks : List Task) (taskId : String) : Bool × List Task × Bool :=
  match tasks with
  | [] => (false, [], false)
  | t :: ts =>
    if t.id == taskId then (true, ts, true)
    else
      let (r, ts', wrote) := deleteTask ts taskId
      (r, t :: ts', wrote)

/-! ### Search (`searchTasks`)

`searchTasksCompute` is the filtering computation of `searchTasks` (the path
taken on a 30-second result-cache miss; the cache stores previously computed
results of this same computation and is cleared on every save). -/

/-- The status filter inside the `searchTasks` task predicate. -/
def statusKeep (showCompleted showPending : Bool) (t : Task) : Bool :=
  if !showCompleted && t.isCompleted then false
  else if !showPending && !t.isCompleted then false
  else true

/-- The lowercased multi-field haystack
```${title} ${description} ${name} ${role} ${dateAdded} ${dayAdded}`.toLowerCase()``. -/
def searchHaystack (t : Task) : String :=
  jsToLower (t.title ++ " " ++ t.description ++ " " ++ t.name ++ " " ++ t.role ++
    " " ++ t.dateAdded ++ " " ++ t.dayAdded)

/-- The query-matching part of the `searchTasks` predicate, for a non-empty
`query` (the lowercased trimmed search string) with word list `queryWords`.
The truthiness guards `task.name && …` / `task.role && …` /
`task.description && …` coincide with plain `includes` for string fields and
a non-empty query (the empty string contains no non-empty substring). -/
def taskMatchesQuery (query : String) (queryWords : List String) (t : Task) : Bool :=
  if queryWords.length > 1 then
    queryWords.all fun word => strIncludes (searchHaystack t) word
  else
    strIncludes (jsToLower t.title) query ||
    strIncludes (jsToLower t.name) query ||
    strIncludes (jsToLower t.role) query ||
    strIncludes t.dateAdded query ||
    strIncludes (jsToLower t.dayAdded) query ||
    strIncludes (jsToLower t.description) query ||
    matchesDateSearch t.createdAt query

/-- Model of `searchTasks(searchQuery, showCompleted, showPending)` applied
to the collection `tasks` returned by `getTasks()`. -/
def searchTasksCompute (searchQuery : String) (showCompleted showPending : Bool)
    (tasks : List Task) : List Task :=
  if jsTrim searchQuery == "" && showCompleted && showPending then tasks
  else
    let query := jsTrim (jsToLower searchQuery)
    let queryWords := splitWords query
    tasks.filter fun t =>
      if !showCompleted && t.isCompleted then false
      else if !showPending && !t.isCompleted then false
      else if query == "" then true
      else taskMatchesQuery query queryWords t

/-! ### Durable storage and `getTasks` -/

/-- A JSON field value as far as the shape validation in
`validateAndCleanTasks` observes it: a string, a boolean, or anything else
(absent, `null`, a number, …). -/
inductive JField where
  | str (s : String)
  | boolVal (b : Bool)
  | missing
  deriving DecidableEq

/-- Is the field a string (`typeof x === "string"`)? -/
def JField.isStr : JField → Bool
  | .str _ => true
  | _ => false

/-- Is the field a boolean (`typeof x === "boolean"`)? -/
def JField.isBool : JField → Bool
  | .boolVal _ => true
  | _ => false

/-- A record parsed from the primary durable JSON array.  The five validated
fields can have arbitrary JSON types; `description`/`name`/`role` are modeled
as string-or-absent (the shapes `?.trim() || ""` handles), and
`dateAdded`/`dayAdded` — which the cleaning step passes through via the
object spread — as strings. -/
structure RawRecord where
  id : JField
  title : JField
  isCompleted : JField
  createdAt : JField
  updatedAt : JField
  description : Option String
  name : Option String
  role : Option String
  dateAdded : String
  dayAdded : String
  deriving DecidableEq

/-- An element of the parsed primary JSON array: a task-shaped record, or
any other JSON value (`null`, a number, a string, …), which the
`task && typeof task.id === "string" && …` filter rejects. -/
inductive RawItem where
  | junk
  | record (r : RawRecord)
  deriving DecidableEq

/-- Model of `validateAndCleanTasks`: keep the records with string
`id`/`title`/`createdAt`/`updatedAt` and boolean `isCompleted`, and clean the
kept ones — `title` is trimmed, `description`/`name`/`role` get
`?.trim() || ""`, and every other field is spread through unchanged. -/
def validateAndCleanTasks (tasks : List RawItem) : List Task :=
  tasks.filterMap fun item =>
    match item with
    | .junk => none
    | .record r =>
      match r.id, r.title, r.isCompleted, r.createdAt, r.updatedAt with
      | .str i, .str t, .boolVal b, .str c, .str u =>
        some { id := i
               title := jsTrim t
               description := (r.description.map jsTrim).getD ""
               name := (r.name.map jsTrim).getD ""
               role := (r.role.map jsTrim).getD ""
               isCompleted := b
               createdAt := c
               updatedAt := u
               dateAdded := r.dateAdded
               dayAdded := r.dayAdded }
      | _, _, _, _, _ => none

/-- Escaping performed by `JSON.stringify` on the characters our checksum
payloads contain. -/
def jsonEscapeChar (c : Char) : List Char :=
  if c = '"' then ['\\', '"'] else if c = '\\' then ['\\', '\\'] else [c]

/-- Rendering of a string value by `JSON.stringify` (quotes plus escaping). -/
def jsonStr (s : String) : String :=
  "\"" ++ String.mk (s.toList.flatMap jsonEscapeChar) ++ "\""

/-- Model of `JSON.stringify(data.map((t) => ({ id: t.id, updatedAt: t.updatedAt })))`. -/
def jsonIdUpdatedAt (data : List Task) : String :=
  "[" ++ String.intercalate ","
    (data.map fun t =>
      "\x7b\"id\":" ++ jsonStr t.id ++ ",\"updatedAt\":" ++ jsonStr t.updatedAt ++ "\x7d")
    ++ "]"

/-- The base64 alphabet. -/
def base64Char (n : Nat) : Char :=
  "ABCDEFGHIJKLMNOPQRSTUVWXYZabcdefghijklmnopqrstuvwxyz0123456789+/".toList.getD n 'A'

/-- Base64-encode a byte list, three bytes at a time. -/
def btoaAux : List Nat → List Char
  | [] => []
  | [a] => [base64Char (a / 4), base64Char (a % 4 * 16), '=', '=']
  | [a, b] => [base64Char (a / 4), base64Char (a % 4 * 16 + b / 16),
               base64Char (b % 16 * 4), '=']
  | a :: b :: c :: rest =>
    base64Char (a / 4) :: base64Char (a % 4 * 16 + b / 16) ::
    base64Char (b % 16 * 4 + c / 64) :: base64Char (c % 64) :: btoaAux rest

/-- Model of the browser's `btoa` on Latin-1 input. -/
def btoa (s : String) : String := String.mk (btoaAux (s.toList.map Char.toNat))

/-- Model of `generateChecksum`:
`btoa(JSON.stringify(data.map((t) => ({ id: t.id, updatedAt: t.updatedAt }))))`. -/
def generateChecksum (data : List Task) : String := btoa (jsonIdUpdatedAt data)

/-- Ten minutes, in milliseconds (`CACHE_EXPIRY`). -/
def CACHE_EXPIRY : Nat := 10 * 60 * 1000

/-- The parsed `CacheEntry` stored under the secondary cache key. -/
structure CacheEntry where
  data : List Task
  timestamp : Nat
  checksum : String
  deriving DecidableEq

/-- State of the secondary durable cache slot (`CACHE_KEY`) as seen by one
`getTasks` read: absent, a read that throws (storage failure), a value
`JSON.parse` rejects, or a parsed entry. -/
inductive CacheSlot where
  | absent
  | storageErr
  | malformed
  | entry (e : CacheEntry)
  deriving DecidableEq

/-- State of the primary durable slot (`TASKS_KEY`): absent, a read that
throws, a value `JSON.parse` rejects, or a parsed JSON array. -/
inductive MainSlot where
  | absent
  | storageErr
  | malformed
  | json (records : List RawItem)
  deriving DecidableEq

/-- The primary-record fallback of `getTasks`: parse `TASKS_KEY` and
validate; an absent record yields `[]`, and a storage or parse failure is
caught by the surrounding `try`/`catch`, which returns `[]`. -/
def readPrimary : MainSlot → List Task
  | .absent => []
  | .storageErr => []
  | .malformed => []
  | .json records => validateAndCleanTasks records

/-- The secondary-cache check of `getTasks` (reached when the memory cache
misses): a fresh entry whose recomputed checksum matches its stored checksum
is returned as-is; anything else falls through to the primary record, except
a storage failure on the cache read, which the outer `catch` turns into `[]`.
A cache value that fails `JSON.parse` is caught by the inner `catch` (the
entry is removed) and control falls through to the primary record. -/
def readSecondary (cacheSlot : CacheSlot) (mainSlot : MainSlot) (now : Nat) : List Task :=
  match cacheSlot with
  | .storageErr => []
  | .entry e =>
    if now - e.timestamp < CACHE_EXPIRY then
      if generateChecksum e.data == e.checksum then e.data
      else readPrimary mainSlot
    else readPrimary mainSlot
  | .absent => readPrimary mainSlot
  | .malformed => readPrimary mainSlot

/-- Model of one `getTasks()` read: memory cache first (`this.cache` with its
timestamp), then the secondary durable cache, then the primary record. -/
def getTasksModel (memCache : Option (List Task)) (memTimestamp : Nat)
    (cacheSlot : CacheSlot) (mainSlot : MainSlot) (now : Nat) : List Task :=
  match memCache with
  | some data => if now - memTimestamp < CACHE_EXPIRY then data
                 else readSecondary cacheSlot mainSlot now
  | none => readSecondary cacheSlot mainSlot now

/-! ### Memoization utility (`memoize` in `lib/performance.ts`)

The `Map` backing the cache is modeled as an insertion-ordered association
list with unique keys, mirroring JavaScript `Map` semantics: `set` updates an
existing key in place and appends a new one, `delete` removes the entry. -/

/-- One cache entry of the memoization map. -/
structure MemoEntry (β : Type) where
  value : β
  timestamp : Nat
  deriving DecidableEq

/-- Model of `Map.prototype.get`. -/
def mapGet {β : Type} (m : List (String × MemoEntry β)) (k : String) :
    Option (MemoEntry β) :=
  match m with
  | [] => none
  | (k', e) :: rest => if k' == k then some e else mapGet rest k

/-- Model of `Map.prototype.set`: update in place if the key exists, else append. -/
def mapSet {β : Type} (m : List (String × MemoEntry β)) (k : String)
    (e : MemoEntry β) : List (String × MemoEntry β) :=
  match m with
  | [] => [(k, e)]
  | (k', e') :: rest =>
    if k' == k then (k', e) :: rest else (k', e') :: mapSet rest k e

/-- Model of `Map.prototype.delete`. -/
def mapDelete {β : Type} (m : List (String × MemoEntry β)) (k : String) :
    List (String × MemoEntry β) :=
  match m with
  | [] => []
  | (k', e') :: rest =>
    if k' == k then rest else (k', e') :: mapDelete rest k

/-- Stable insertion of an entry into a timestamp-sorted list, placing it
after every entry with a smaller-or-equal timestamp. -/
def insertByTs {β : Type} (x : String × MemoEntry β) :
    List (String × MemoEntry β) → List (String × MemoEntry β)
  | [] => [x]
  | y :: ys =>
    if y.2.timestamp ≤ x.2.timestamp then y :: insertByTs x ys
    else x :: y :: ys

/-- Stable sort by timestamp, ascending — the effect of
`entries.sort((a, b) => a[1].timestamp - b[1].timestamp)` (JavaScript's
`sort` is stable). -/
def sortByTs {β : Type} (m : List (String × MemoEntry β)) :
    List (String × MemoEntry β) :=
  m.foldl (fun acc x => insertByTs x acc) []

/-- The cleanup block of `memoize`: sort the entries by timestamp and
delete the first `Math.floor(entries.length * 0.25)` keys (`n * 0.25` is
exact in binary floating point, so the count is `n / 4`). -/
def evictOldest {β : Type} (m : List (String × MemoEntry β)) :
    List (String × MemoEntry β) :=
  let entries := sortByTs m
  let toRemove := entries.length / 4
  (entries.take toRemove).foldl (fun acc e => mapDelete acc e.1) m

/-- One call of a `memoize`d function: return the cached value when the key
is present and fresh (`!ttl || now - cached.timestamp < ttl`); otherwise
compute, run the cleanup block when `cache.size >= maxSize`, and store the
result under the key with the current timestamp. -/
def memoStep {α β : Type} (fn : α → β) (keyGenerator : α → String)
    (maxSize ttl : Nat) (cache : List (String × MemoEntry β)) (arg : α)
    (now : Nat) : β × List (String × MemoEntry β) :=
  let key := keyGenerator arg
  let hit : Option β :=
    match mapGet cache key with
    | some cached =>
      if ttl == 0 || now - cached.timestamp < ttl then some cached.value else none
    | none => none
  match hit with
  | some v => (v, cache)
  | none =>
    let result := fn arg
    let cache' := if maxSize ≤ cache.length then evictOldest cache else cache
    (result, mapSet cache' key { value := result, timestamp := now })

/-! ### Specification-side definitions

The following definitions transcribe the claims' wording (rather than the
source); the theorems below compare them with the source-derived model. -/

/-- Does every field named in the patch equal the task's current value?
(`o.all f` is `f v` when `o = some v` and `true` when the key is absent.) -/
def patchMatchesCurrent (t : Task) (p : TaskPatch) : Bool :=
  p.id.all (fun v => v == t.id) &&
  p.title.all (fun v => v == t.title) &&
  p.description.all (fun v => v == t.description) &&
  p.name.all (fun v => v == t.name) &&
  p.role.all (fun v => v == t.role) &&
  p.isCompleted.all (fun v => v == t.isCompleted) &&
  p.createdAt.all (fun v => v == t.createdAt) &&
  p.updatedAt.all (fun v => v == t.updatedAt) &&
  p.dateAdded.all (fun v => v == t.dateAdded) &&
  p.dayAdded.all (fun v => v == t.dayAdded)

/-- Claim-side single-word search match: the word is a substring of the
lowercased title, lowercased name, lowercased role, the `dateAdded` string
as-is, the lowercased `dayAdded`, the lowercased description, or the
`YYYY-MM-DD` date-part extracted from `createdAt`. -/
def specSingleWordMatch (w : String) (t : Task) : Bool :=
  strIncludes (jsToLower t.title) w ||
  strIncludes (jsToLower t.name) w ||
  strIncludes (jsToLower t.role) w ||
  strIncludes t.dateAdded w ||
  strIncludes (jsToLower t.dayAdded) w ||
  strIncludes (jsToLower t.description) w ||
  matchesDateSearch t.createdAt w

/-- Claim-side multi-word search match: every query word is a substring of
the lowercased concatenation of title, description, name, role, `dateAdded`
and `dayAdded` (the concatenation separates the fields with single spaces,
as the template literal in the source does; query words never contain
whitespace). -/
def specMultiWordMatch (ws : List String) (t : Task) : Bool :=
  ws.all fun word => strIncludes (searchHaystack t) word

/-- Claim-side search predicate for a non-blank query: lowercase and trim
the query and split it on whitespace; more than one word requires every word
in the combined haystack, exactly one word uses the single-word field list. -/
def specQueryMatch (searchQuery : String) (t : Task) : Bool :=
  match splitWords (jsTrim (jsToLower searchQuery)) with
  | [w] => specSingleWordMatch w t
  | ws => specMultiWordMatch ws t

/-- Claim-side record cleaning (as amended): discard records lacking a
string `id`/`title`/`createdAt`/`updatedAt` or boolean `isCompleted`; trim
`title` and the optional `description`/`name`/`role` (absent ones becoming
`""`); pass `id`, `createdAt`, `updatedAt`, `dateAdded`, `dayAdded` through
unchanged. -/
def specCleanRaw (item : RawItem) : Option Task :=
  match item with
  | .junk => none
  | .record r =>
    if r.id.isStr && r.title.isStr && r.isCompleted.isBool &&
        r.createdAt.isStr && r.updatedAt.isStr then
      match r.id, r.title, r.isCompleted, r.createdAt, r.updatedAt with
      | .str i, .str t, .boolVal b, .str c, .str u =>
        some { id := i
               title := jsTrim t
               description := (r.description.map jsTrim).getD ""
               name := (r.name.map jsTrim).getD ""
               role := (r.role.map jsTrim).getD ""
               isCompleted := b
               createdAt := c
               updatedAt := u
               dateAdded := r.dateAdded
               dayAdded := r.dayAdded }
      | _, _, _, _, _ => none
    else none

/-- Shorthand constructor for concrete tasks in witnesses and
counterexamples. -/
def mkTask (i tt de nm rl : String) (done : Bool) (c u da dw : String) : Task :=
  { id := i, title := tt, description := de, name := nm, role := rl,
    isCompleted := done, createdAt := c, updatedAt := u,
    dateAdded := da, dayAdded := dw }

/-! ## Theorems -/

/-- Running `updateTask` on a collection whose first id match is `cur` (at position
`pre.length`): the matched task is merged and replaced in place exactly when
`hasChanges` holds, and otherwise nothing is touched. -/
theorem updateTask_first_match (pre : List Task) (cur : Task) (post : List Task)
    (taskId : String) (p : TaskPatch) (nowStr : String)
    (hpre : ∀ t ∈ pre, (t.id == taskId) = false) (hcur : cur.id = taskId) :
    updateTask (pre ++ cur :: post) taskId p nowStr =
      if hasChanges cur p nowStr then
        (some (mergeTask cur p nowStr), pre ++ mergeTask cur p nowStr :: post, true)
      else (some cur, pre ++ cur :: post, false) := by
  induction pre with
  | nil =>
    subst hcur
    simp only [List.nil_append, updateTask, beq_self_eq_true, if_true]
  | cons a as ih =>
    have ha : (a.id == taskId) = false := hpre a (List.mem_cons_self a as)
    have ih' := ih (fun t ht => hpre t (List.mem_cons_of_mem a ht))
    simp only [List.cons_append, updateTask, ha, Bool.false_eq_true, if_false,
      List.append_eq]
    rw [ih']
    by_cases h : hasChanges cur p nowStr <;> simp [h]

/-- Running `deleteTask` on a collection whose first id match is `cur`: the match is
spliced out and the write performed. -/
theorem deleteTask_first_match (pre : List Task) (cur : Task) (post : List Task)
    (taskId : String)
    (hpre : ∀ t ∈ pre, (t.id == taskId) = false) (hcur : cur.id = taskId) :
    deleteTask (pre ++ cur :: post) taskId = (true, pre ++ post, true) := by
  induction pre with
  | nil =>
    subst hcur
    simp [deleteTask]
  | cons a as ih =>
    have ha : (a.id == taskId) = false := hpre a (List.mem_cons_self a as)
    have ih' := ih (fun t ht => hpre t (List.mem_cons_of_mem a ht))
    simp only [List.cons_append, deleteTask, ha, Bool.false_eq_true, if_false,
      List.append_eq, ih']

/-- C6: when no task in the collection has id `taskId`, `updateTask` returns
`null` and `deleteTask` returns `false`; in both cases the collection is
returned unchanged and no durable write is performed (the returned write
flag is `false`); both paths are ordinary returns, not exceptions. -/
theorem c6_not_found_sentinels (tasks : List Task) (taskId : String)
    (p : TaskPatch) (nowStr : String) (h : ∀ t ∈ tasks, t.id ≠ taskId) :
    updateTask tasks taskId p nowStr = (none, tasks, false) ∧
    deleteTask tasks taskId = (false, tasks, false) := by
  induction tasks with
  | nil => exact ⟨rfl, rfl⟩
  | cons a as ih =>
    have ha : (a.id == taskId) = false := by
      simpa using h a (List.mem_cons_self a as)
    have ih' := ih (fun t ht => h t (List.mem_cons_of_mem a ht))
    constructor
    · simp only [updateTask, ha, Bool.false_eq_true, if_false, ih'.1]
    · simp only [deleteTask, ha, Bool.false_eq_true, if_false, ih'.2]

/-- C6 witness: a concrete two-task collection without the requested id. -/
theorem c6_not_found_sentinels_witness :
    updateTask
      [{ id := "1", title := "a", description := "", name := "", role := "",
         isCompleted := false, createdAt := "c", updatedAt := "u",
         dateAdded := "d", dayAdded := "w" }]
      "2" { title := some "x" } "now" =
      (none,
        [{ id := "1", title := "a", description := "", name := "", role := "",
           isCompleted := false, createdAt := "c", updatedAt := "u",
           dateAdded := "d", dayAdded := "w" }], false) ∧
    deleteTask
      [{ id := "1", title := "a", description := "", name := "", role := "",
         isCompleted := false, createdAt := "c", updatedAt := "u",
         dateAdded := "d", dayAdded := "w" }]
      "2" =
      (false,
        [{ id := "1", title := "a", description := "", name := "", role := "",
           isCompleted := false, createdAt := "c", updatedAt := "u",
           dateAdded := "d", dayAdded := "w" }], false) :=
  c6_not_found_sentinels _ "2" _ "now" (by decide)

/-- C9: a changing `updateTask` on a collection whose first task with the
requested id sits at position `pre.length` replaces exactly that task, in
place: the result equals the original with only that position overwritten by
the merged task, the length is unchanged, and every other position holds the
exact original task. -/
theorem c9_updateTask_frame (pre : List Task) (cur : Task) (post : List Task)
    (taskId : String) (p : TaskPatch) (nowStr : String)
    (hpre : ∀ t ∈ pre, (t.id == taskId) = false) (hcur : cur.id = taskId)
    (hch : hasChanges cur p nowStr = true) :
    updateTask (pre ++ cur :: post) taskId p nowStr =
      (some (mergeTask cur p nowStr), pre ++ mergeTask cur p nowStr :: post, true) ∧
    (pre ++ mergeTask cur p nowStr :: post).length = (pre ++ cur :: post).length ∧
    (pre ++ mergeTask cur p nowStr :: post)[pre.length]? = some (mergeTask cur p nowStr) ∧
    ∀ j, j ≠ pre.length →
      (pre ++ mergeTask cur p nowStr :: post)[j]? = (pre ++ cur :: post)[j]? := by
  refine ⟨?_, by simp, ?_, ?_⟩
  · rw [updateTask_first_match pre cur post taskId p nowStr hpre hcur, if_pos hch]
  · rw [List.getElem?_append_right (Nat.le_refl pre.length)]
    simp
  · intro j hj
    rcases Nat.lt_or_ge j pre.length with h | h
    · rw [List.getElem?_append_left h, List.getElem?_append_left h]
    · have h1 : pre.length < j := Nat.lt_of_le_of_ne h (Ne.symm hj)
      rw [List.getElem?_append_right h, List.getElem?_append_right h]
      have h2 : j - pre.length = (j - pre.length - 1) + 1 := by omega
      rw [h2]
      simp

/-- C9 witness: a concrete two-task collection; the second task is the match
and is replaced in place. -/
theorem c9_updateTask_frame_witness :
    updateTask
      [mkTask "1" "first" "" "" "" false "c1" "u1" "d1" "w1",
       mkTask "2" "old" "" "" "" false "c2" "u2" "d2" "w2"]
      "2" { title := some "new" } "now" =
      (some (mkTask "2" "new" "" "" "" false "c2" "now" "d2" "w2"),
       [mkTask "1" "first" "" "" "" false "c1" "u1" "d1" "w1",
        mkTask "2" "new" "" "" "" false "c2" "now" "d2" "w2"], true) := by
  have h := c9_updateTask_frame
    [mkTask "1" "first" "" "" "" false "c1" "u1" "d1" "w1"]
    (mkTask "2" "old" "" "" "" false "c2" "u2" "d2" "w2") []
    "2" { title := some "new" } "now" (by decide) (by decide) (by decide)
  simpa [mkTask, mergeTask] using h.1

/-- C10: every task returned by `addTask` starts pending: its `isCompleted`
field is `false` for every creation input (whose type carries no completion
field at all). -/
theorem c10_addTask_starts_pending (taskData : TaskFormData) (newId : String)
    (now : JSDate) (tasks : List Task) :
    (addTask taskData newId now tasks).1.isCompleted = false := rfl

/-- One clause of `hasChanges` versus one conjunct of
`patchMatchesCurrent`, for a field the merge takes from the patch. -/
theorem optField_check {σ : Type} [BEq σ] [LawfulBEq σ] (o : Option σ) (c : σ) :
    (o.isSome && c != o.getD c) = !(o.all fun v => v == c) := by
  cases o with
  | none => simp
  | some v => simp [bne, eq_comm, Option.all]

/-- For a patch that does not name `updatedAt`, the source's `hasChanges`
test is exactly the negation of "every field named in the patch equals the
task's current value". -/
theorem hasChanges_eq_not_patchMatchesCurrent (t : Task) (p : TaskPatch)
    (nowStr : String) (hp : p.updatedAt = none) :
    hasChanges t p nowStr = !patchMatchesCurrent t p := by
  simp only [hasChanges, patchMatchesCurrent, mergeTask, hp, Option.isSome_none,
    Bool.false_and, Bool.or_false, Bool.and_true]
  rw [optField_check p.id t.id, optField_check p.title t.title,
    optField_check p.description t.description, optField_check p.name t.name,
    optField_check p.role t.role, optField_check p.isCompleted t.isCompleted,
    optField_check p.createdAt t.createdAt, optField_check p.dateAdded t.dateAdded,
    optField_check p.dayAdded t.dayAdded]
  simp only [Bool.not_and, Bool.or_assoc, Option.all_none, Bool.not_true,
    Bool.false_or]

/-- C1 counterexample: the claim fails for a patch that names `updatedAt`.
The patch `{ updatedAt: <current value> }` names only fields equal to the
task's current values, yet `updateTask` performs a durable write and returns
a task whose `updatedAt` changed to the fresh timestamp. -/
theorem c1_counterexample :
    patchMatchesCurrent
      (mkTask "1" "t" "" "" "" false "2024-01-15T10:00:00.000Z"
        "2024-01-15T10:00:00.000Z" "2024-01-15" "Monday")
      { updatedAt := some "2024-01-15T10:00:00.000Z" } = true ∧
    updateTask
      [mkTask "1" "t" "" "" "" false "2024-01-15T10:00:00.000Z"
        "2024-01-15T10:00:00.000Z" "2024-01-15" "Monday"]
      "1" { updatedAt := some "2024-01-15T10:00:00.000Z" }
      "2024-01-15T11:00:00.000Z" =
      (some (mkTask "1" "t" "" "" "" false "2024-01-15T10:00:00.000Z"
        "2024-01-15T11:00:00.000Z" "2024-01-15" "Monday"),
       [mkTask "1" "t" "" "" "" false "2024-01-15T10:00:00.000Z"
        "2024-01-15T11:00:00.000Z" "2024-01-15" "Monday"], true) ∧
    ("2024-01-15T11:00:00.000Z" : String) ≠ "2024-01-15T10:00:00.000Z" := by
  refine ⟨by decide, by decide, by decide⟩

/-- C1 (amended): for a patch that does not name `updatedAt`, applied to the
first task with the requested id: if every field named in the patch equals
the task's current value, `updateTask` returns the stored task unmodified,
leaves the collection untouched and performs no durable write; if some named
field differs, it replaces the task with the merge, stamps `updatedAt` with
the fresh timestamp (changing it whenever the fresh timestamp differs from
the stored one) and saves immediately. -/
theorem c1_updateTask_noop_vs_change (pre : List Task) (cur : Task)
    (post : List Task) (taskId : String) (p : TaskPatch) (nowStr : String)
    (hpre : ∀ t ∈ pre, (t.id == taskId) = false) (hcur : cur.id = taskId)
    (hp : p.updatedAt = none) :
    (patchMatchesCurrent cur p = true →
      updateTask (pre ++ cur :: post) taskId p nowStr =
        (some cur, pre ++ cur :: post, false)) ∧
    (patchMatchesCurrent cur p = false →
      updateTask (pre ++ cur :: post) taskId p nowStr =
        (some (mergeTask cur p nowStr), pre ++ mergeTask cur p nowStr :: post, true) ∧
      (mergeTask cur p nowStr).updatedAt = nowStr ∧
      (nowStr ≠ cur.updatedAt → (mergeTask cur p nowStr).updatedAt ≠ cur.updatedAt)) := by
  have hc := hasChanges_eq_not_patchMatchesCurrent cur p nowStr hp
  constructor
  · intro hm
    rw [updateTask_first_match pre cur post taskId p nowStr hpre hcur, if_neg]
    rw [hc, hm]
    simp
  · intro hm
    refine ⟨?_, rfl, fun hne => by simpa [mergeTask] using hne⟩
    rw [updateTask_first_match pre cur post taskId p nowStr hpre hcur, if_pos]
    rw [hc, hm]
    simp

/-- C1 witness: both branches of the amended claim at concrete inputs — a
patch repeating the current title is a silent no-op, and a patch with a new
title writes and restamps `updatedAt`. -/
theorem c1_updateTask_noop_vs_change_witness :
    updateTask [mkTask "1" "t" "" "" "" false "c" "u" "d" "w"] "1"
      { title := some "t" } "now" =
      (some (mkTask "1" "t" "" "" "" false "c" "u" "d" "w"),
       [mkTask "1" "t" "" "" "" false "c" "u" "d" "w"], false) ∧
    updateTask [mkTask "1" "t" "" "" "" false "c" "u" "d" "w"] "1"
      { title := some "s" } "now" =
      (some (mergeTask (mkTask "1" "t" "" "" "" false "c" "u" "d" "w")
          { title := some "s" } "now"),
       [mergeTask (mkTask "1" "t" "" "" "" false "c" "u" "d" "w")
          { title := some "s" } "now"], true) := by
  constructor
  · exact (c1_updateTask_noop_vs_change [] _ [] "1" { title := some "t" } "now"
      (by decide) (by decide) rfl).1 (by decide)
  · exact ((c1_updateTask_noop_vs_change [] _ [] "1" { title := some "s" } "now"
      (by decide) (by decide) rfl).2 (by decide)).1

/-- Inserting with `insertByTs` yields a permutation of the
element consed on. -/
theorem insertByTs_perm {β : Type} (x : String × MemoEntry β) :
    ∀ l : List (String × MemoEntry β), (insertByTs x l).Perm (x :: l)
  | [] => List.Perm.refl _
  | y :: ys => by
    unfold insertByTs
    by_cases h : y.2.timestamp ≤ x.2.timestamp
    · simp only [h, if_true]
      exact ((insertByTs_perm x ys).cons y).trans (List.Perm.swap x y ys)
    · simp only [h, if_false]
      exact List.Perm.refl _

/-- The fold underlying `sortByTs` permutes its input onto the accumulator. -/
theorem sortByTs_fold_perm {β : Type} :
    ∀ (l acc : List (String × MemoEntry β)),
      (l.foldl (fun a x => insertByTs x a) acc).Perm (l ++ acc)
  | [], acc => by simp
  | x :: xs, acc => by
    simp only [List.foldl_cons, List.cons_append]
    exact ((sortByTs_fold_perm xs (insertByTs x acc)).trans
      (List.Perm.append_left xs (insertByTs_perm x acc))).trans
      (List.perm_middle.trans (List.Perm.refl _))

/-- Sorting with `sortByTs` permutes the input. -/
theorem sortByTs_perm {β : Type} (m : List (String × MemoEntry β)) :
    (sortByTs m).Perm m := by
  simpa using sortByTs_fold_perm m []

/-- The keys left by `mapDelete` are the original keys with the first
occurrence of the deleted key erased. -/
theorem mapDelete_keys {β : Type} (k : String) :
    ∀ m : List (String × MemoEntry β),
      (mapDelete m k).map Prod.fst = (m.map Prod.fst).erase k
  | [] => rfl
  | (k', e') :: rest => by
    simp only [mapDelete, List.map_cons, List.erase_cons]
    by_cases h : k' == k
    · simp [h]
    · simp only [h, if_false, Bool.false_eq_true, List.map_cons]
      rw [mapDelete_keys k rest]

/-- Deleting a list of distinct keys that are all present removes exactly
that many entries. -/
theorem foldl_mapDelete_length {β : Type} :
    ∀ (ks : List String) (m : List (String × MemoEntry β)), ks.Nodup →
      (∀ k ∈ ks, k ∈ m.map Prod.fst) →
      (ks.foldl (fun acc k => mapDelete acc k) m).length = m.length - ks.length
  | [], m, _, _ => by simp
  | k :: ks, m, hnd, hmem => by
    have hk : k ∈ m.map Prod.fst := hmem k (List.mem_cons_self k ks)
    have hlen : (mapDelete m k).length = m.length - 1 := by
      have := congrArg List.length (mapDelete_keys k m)
      simpa [List.length_erase_of_mem hk] using this
    have hmem' : ∀ k' ∈ ks, k' ∈ (mapDelete m k).map Prod.fst := by
      intro k' hk'
      rw [mapDelete_keys k m]
      have hne : k' ≠ k := by
        intro he
        exact (List.nodup_cons.mp hnd).1 (he ▸ hk')
      exact (List.mem_erase_of_ne hne).mpr (hmem k' (List.mem_cons_of_mem k hk'))
    have hpos : 1 ≤ m.length := by
      cases m with
      | nil => simp at hk
      | cons a as => simp
    rw [List.foldl_cons,
      foldl_mapDelete_length ks (mapDelete m k) (List.nodup_cons.mp hnd).2 hmem',
      hlen]
    simp only [List.length_cons]
    omega

/-- Setting a key grows the map by at most one entry. -/
theorem mapSet_length_le {β : Type} (k : String) (e : MemoEntry β) :
    ∀ m : List (String × MemoEntry β), (mapSet m k e).length ≤ m.length + 1
  | [] => by simp [mapSet]
  | (k', e') :: rest => by
    simp only [mapSet]
    by_cases h : k' == k
    · simp [h]
    · simp only [h, Bool.false_eq_true, if_false, List.length_cons]
      exact Nat.succ_le_succ (mapSet_length_le k e rest)

/-- Eviction on a duplicate-free map of size `n` removes exactly
`n / 4` entries. -/
theorem evictOldest_length {β : Type} (m : List (String × MemoEntry β))
    (hnd : (m.map Prod.fst).Nodup) :
    (evictOldest m).length = m.length - m.length / 4 := by
  simp only [evictOldest]
  have hperm : ((sortByTs m).map Prod.fst).Perm (m.map Prod.fst) :=
    (sortByTs_perm m).map Prod.fst
  have hslen : (sortByTs m).length = m.length := (sortByTs_perm m).length_eq
  have hnd' : ((sortByTs m).map Prod.fst).Nodup := hperm.nodup_iff.mpr hnd
  have hfold :
      (((sortByTs m).take ((sortByTs m).length / 4)).foldl
        (fun acc e => mapDelete acc e.1) m) =
      ((((sortByTs m).take ((sortByTs m).length / 4)).map Prod.fst).foldl
        (fun acc k => mapDelete acc k) m) := by
    rw [List.foldl_map]
  rw [hslen] at hfold ⊢
  rw [hfold, foldl_mapDelete_length]
  · rw [List.length_map, List.length_take, hslen]
    congr 1
    omega
  · exact hnd'.sublist ((List.take_sublist _ _).map Prod.fst)
  · intro k hkmem
    have : k ∈ (sortByTs m).map Prod.fst :=
      ((List.take_sublist _ _).map Prod.fst).mem hkmem
    exact hperm.mem_iff.mp this

/-- C8 counterexample: with `maxSize = 1` (the configuration the repository
itself uses for `getTasks`) the cache grows to two entries — past its
maximum size — because the eviction count `Math.floor(1 * 0.25)` is zero. -/
theorem c8_counterexample :
    (memoStep (fun n : Nat => n) natStr 1 1000
      (memoStep (fun n : Nat => n) natStr 1 1000 [] 5 0).2 6 1).2.length = 2 ∧
    1 < 2 := by
  refine ⟨by decide, by decide⟩

/-- C8 (amended): on a miss the memoized wrapper evicts the oldest
`⌊size/4⌋` entries once the entry count has reached `maxSize`; consequently,
whenever `maxSize ≥ 4`, a cache currently within its maximum (with the
`Map`'s duplicate-free keys) never grows past `maxSize`.  (For
`maxSize < 4` the eviction count is zero and the bound can be exceeded.) -/
theorem c8_memoize_bound {α β : Type} (fn : α → β) (keyGenerator : α → String)
    (maxSize ttl : Nat) (cache : List (String × MemoEntry β)) (arg : α)
    (now : Nat) (hmax : 4 ≤ maxSize) (hlen : cache.length ≤ maxSize)
    (hnd : (cache.map Prod.fst).Nodup) :
    (memoStep fn keyGenerator maxSize ttl cache arg now).2.length ≤ maxSize := by
  simp only [memoStep]
  split
  · exact hlen
  · by_cases hsz : maxSize ≤ cache.length
    · have hq : 1 ≤ maxSize / 4 := Nat.le_div_iff_mul_le (by omega) |>.mpr (by omega)
      have heq : cache.length = maxSize := Nat.le_antisymm hlen hsz
      have hset := mapSet_length_le (keyGenerator arg)
        { value := fn arg, timestamp := now } (evictOldest cache)
      have hev := evictOldest_length cache hnd
      simp only [hsz, if_true]
      calc (mapSet (evictOldest cache) (keyGenerator arg)
              { value := fn arg, timestamp := now }).length
          ≤ (evictOldest cache).length + 1 := hset
        _ = cache.length - cache.length / 4 + 1 := by rw [hev]
        _ ≤ maxSize := by rw [heq]; omega
    · have hset := mapSet_length_le (keyGenerator arg)
        { value := fn arg, timestamp := now } cache
      simp only [hsz, if_false]
      omega

/-- C8 witness: a full four-entry cache with `maxSize = 4` stays within its
maximum across a miss. -/
theorem c8_memoize_bound_witness :
    (memoStep (fun n : Nat => n) natStr 4 1000
      [("1", ⟨1, 0⟩), ("2", ⟨2, 1⟩), ("3", ⟨3, 2⟩), ("4", ⟨4, 3⟩)] 9 5).2.length ≤ 4 :=
  c8_memoize_bound (fun n : Nat => n) natStr 4 1000
    [("1", ⟨1, 0⟩), ("2", ⟨2, 1⟩), ("3", ⟨3, 2⟩), ("4", ⟨4, 3⟩)] 9 5
    (by decide) (by decide) (by decide)

/-- C3 counterexample: tampering with the secondary cache payload while
leaving the stored checksum unchanged is NOT always detected.  Changing only
a task's `title` leaves the `(id, updatedAt)` projection — all the checksum
digests — unchanged, so the recomputed checksum still matches, the tampered
cache is trusted, and `getTasks` returns the tampered payload instead of
falling back to the primary record. -/
theorem c3_counterexample :
    generateChecksum
        [mkTask "1" "HACKED" "" "" "" false "2024-01-15T10:00:00.000Z"
          "2024-01-15T10:00:00.000Z" "2024-01-15" "Monday"] =
      generateChecksum
        [mkTask "1" "pay rent" "" "" "" false "2024-01-15T10:00:00.000Z"
          "2024-01-15T10:00:00.000Z" "2024-01-15" "Monday"] ∧
    getTasksModel none 0
      (.entry
        { data := [mkTask "1" "HACKED" "" "" "" false "2024-01-15T10:00:00.000Z"
            "2024-01-15T10:00:00.000Z" "2024-01-15" "Monday"]
          timestamp := 0
          checksum := generateChecksum
            [mkTask "1" "pay rent" "" "" "" false "2024-01-15T10:00:00.000Z"
              "2024-01-15T10:00:00.000Z" "2024-01-15" "Monday"] })
      (.json [.record ⟨.str "1", .str "pay rent", .boolVal false,
        .str "2024-01-15T10:00:00.000Z", .str "2024-01-15T10:00:00.000Z",
        some "", some "", some "", "2024-01-15", "Monday"⟩]) 1 =
      [mkTask "1" "HACKED" "" "" "" false "2024-01-15T10:00:00.000Z"
        "2024-01-15T10:00:00.000Z" "2024-01-15" "Monday"] ∧
    readPrimary (.json [.record ⟨.str "1", .str "pay rent", .boolVal false,
        .str "2024-01-15T10:00:00.000Z", .str "2024-01-15T10:00:00.000Z",
        some "", some "", some "", "2024-01-15", "Monday"⟩]) =
      [mkTask "1" "pay rent" "" "" "" false "2024-01-15T10:00:00.000Z"
        "2024-01-15T10:00:00.000Z" "2024-01-15" "Monday"] ∧
    mkTask "1" "HACKED" "" "" "" false "2024-01-15T10:00:00.000Z"
        "2024-01-15T10:00:00.000Z" "2024-01-15" "Monday" ≠
      mkTask "1" "pay rent" "" "" "" false "2024-01-15T10:00:00.000Z"
        "2024-01-15T10:00:00.000Z" "2024-01-15" "Monday" := by
  exact ⟨by decide, by decide, by decide, by decide⟩

/-- C3 (amended): when the memory cache is absent or expired and the
secondary cache entry's recomputed checksum differs from its stored checksum
(which is what a payload mutation that alters some `(id, updatedAt)` pair
produces), `getTasks` ignores the entry and falls back to reading and
validating the primary durable record.  (A mutation preserving every
`(id, updatedAt)` pair is not detected.) -/
theorem c3_checksum_mismatch_falls_back (mem : Option (List Task))
    (memTimestamp : Nat) (e : CacheEntry) (mainSlot : MainSlot) (now : Nat)
    (hmem : mem = none ∨ CACHE_EXPIRY ≤ now - memTimestamp)
    (hcs : generateChecksum e.data ≠ e.checksum) :
    getTasksModel mem memTimestamp (.entry e) mainSlot now = readPrimary mainSlot := by
  have hsec : readSecondary (.entry e) mainSlot now = readPrimary mainSlot := by
    simp only [readSecondary]
    by_cases hf : now - e.timestamp < CACHE_EXPIRY
    · simp [hf, hcs]
    · simp [hf]
  rcases hmem with hmem | hmem
  · rw [hmem]
    exact hsec
  · cases mem with
    | none => exact hsec
    | some data =>
      have : ¬ (now - memTimestamp < CACHE_EXPIRY) := by omega
      simp only [getTasksModel, this, if_false]
      exact hsec

/-- C3 witness: a concrete stale-memory state with a corrupted checksum
falls back to the primary record. -/
theorem c3_checksum_mismatch_falls_back_witness :
    getTasksModel none 0
      (.entry { data := [mkTask "1" "t" "" "" "" false "c" "u" "d" "w"],
                timestamp := 0, checksum := "bogus" })
      (.json [.record ⟨.str "1", .str "t", .boolVal false, .str "c", .str "u",
        some "", some "", some "", "d", "w"⟩]) 5 =
      readPrimary (.json [.record ⟨.str "1", .str "t", .boolVal false, .str "c",
        .str "u", some "", some "", some "", "d", "w"⟩]) :=
  c3_checksum_mismatch_falls_back none 0
    { data := [mkTask "1" "t" "" "" "" false "c" "u" "d" "w"],
      timestamp := 0, checksum := "bogus" }
    (.json [.record ⟨.str "1", .str "t", .boolVal false, .str "c", .str "u",
      some "", some "", some "", "d", "w"⟩]) 5
    (Or.inl rfl) (by decide)

/-- C7 counterexample: two of the claim's clauses fail on the code.  First,
the string fields of a kept record are not all trimmed: a record with a
leading space in `createdAt` is kept with `createdAt` untouched (only
`title`/`description`/`name`/`role` are trimmed).  Second, a parse failure is
not always degraded to an empty collection: a malformed secondary cache
value falls back to the primary record and here returns a one-task
collection, not `[]`. -/
theorem c7_counterexample :
    validateAndCleanTasks [.record ⟨.str "1", .str "t", .boolVal false,
        .str " 2024-01-15T10:00:00.000Z", .str "u", some "", some "", some "",
        "d", "w"⟩] =
      [mkTask "1" "t" "" "" "" false " 2024-01-15T10:00:00.000Z" "u" "d" "w"] ∧
    (" 2024-01-15T10:00:00.000Z" : String) ≠ jsTrim " 2024-01-15T10:00:00.000Z" ∧
    getTasksModel none 0 .malformed
      (.json [.record ⟨.str "1", .str "t", .boolVal false, .str "c", .str "u",
        some "", some "", some "", "d", "w"⟩]) 0 =
      [mkTask "1" "t" "" "" "" false "c" "u" "d" "w"] ∧
    [mkTask "1" "t" "" "" "" false "c" "u" "d" "w"] ≠ ([] : List Task) := by
  exact ⟨by decide, by decide, by decide, by decide⟩

/-- C7 (amended): the primary read discards exactly the records lacking a
string `id`/`title`/`createdAt`/`updatedAt` or boolean `isCompleted`; the
kept records have `title` and the optional `description`/`name`/`role`
trimmed (absent optional fields becoming `""`) while `id`, `createdAt`,
`updatedAt`, `dateAdded` and `dayAdded` pass through unchanged, and exactly
the kept records are returned in order.  A storage failure at either
durable slot and a parse failure of the primary record yield the empty
collection; a cache-entry parse failure instead falls back to the primary
record. -/
theorem c7_validate_and_degrade :
    (∀ items : List RawItem,
      validateAndCleanTasks items = items.filterMap specCleanRaw) ∧
    (∀ (mainSlot : MainSlot) (now : Nat),
      readSecondary .storageErr mainSlot now = []) ∧
    readPrimary .storageErr = [] ∧ readPrimary .malformed = [] ∧
    readPrimary .absent = [] ∧
    (∀ (mainSlot : MainSlot) (now : Nat),
      readSecondary .malformed mainSlot now = readPrimary mainSlot) := by
  refine ⟨?_, fun _ _ => rfl, rfl, rfl, rfl, fun _ _ => rfl⟩
  intro items
  induction items with
  | nil => rfl
  | cons item rest ih =>
    simp only [validateAndCleanTasks, List.filterMap_cons] at ih ⊢
    rw [ih]
    cases item with
    | junk => rfl
    | record r =>
      obtain ⟨i, t, ic, c, u, de, nm, rl, da, dw⟩ := r
      cases i <;> cases t <;> cases ic <;> cases c <;> cases u <;> rfl

/-- The decimal rendering does not depend on the fuel, provided there is
enough of it. -/
theorem natStrAux_fuel_eq (n : Nat) : ∀ f1 f2, n < f1 → n < f2 →
    natStrAux f1 n = natStrAux f2 n := by
  induction n using Nat.strong_induction_on with
  | _ n ih =>
    intro f1 f2 h1 h2
    obtain ⟨g1, rfl⟩ : ∃ k, f1 = k + 1 := ⟨f1 - 1, by omega⟩
    obtain ⟨g2, rfl⟩ : ∃ k, f2 = k + 1 := ⟨f2 - 1, by omega⟩
    simp only [natStrAux]
    by_cases h : n < 10
    · simp [h]
    · simp only [h, if_false]
      have hdiv : n / 10 < n := Nat.div_lt_self (by omega) (by omega)
      rw [ih (n / 10) hdiv g1 g2 (by omega) (by omega)]

/-- Rendering an `n ≥ 10` emits one digit more than rendering `n / 10`. -/
theorem natStr_length_div (n : Nat) (h : 10 ≤ n) :
    (natStrAux (n + 1) n).length = (natStrAux (n / 10 + 1) (n / 10)).length + 1 := by
  conv_lhs => rw [natStrAux]
  have h10 : ¬ n < 10 := by omega
  have hdiv : n / 10 < n := Nat.div_lt_self (by omega) (by omega)
  simp only [h10, if_false, List.length_append, List.length_cons, List.length_nil]
  rw [natStrAux_fuel_eq (n / 10) n (n / 10 + 1) (by omega) (by omega)]

/-- A four-digit year renders to four characters. -/
theorem natStr_length_four (n : Nat) (h1 : 1000 ≤ n) (h2 : n < 10000) :
    (natStr n).length = 4 := by
  have d1 : n / 10 / 10 = n / 100 := by rw [Nat.div_div_eq_div_mul]
  have d2 : n / 100 / 10 = n / 1000 := by rw [Nat.div_div_eq_div_mul]
  have b2 : 10 ≤ n / 100 := Nat.le_div_iff_mul_le (by omega) |>.mpr (by omega)
  have b3 : n / 1000 < 10 := Nat.div_lt_iff_lt_mul (by omega) |>.mpr (by omega)
  have e3 := natStr_length_div n (by omega)
  have e2 := natStr_length_div (n / 10)
    (Nat.le_div_iff_mul_le (by omega) |>.mpr (by omega))
  have e1 := natStr_length_div (n / 100) b2
  have e0 : (natStrAux (n / 1000 + 1) (n / 1000)).length = 1 := by
    simp [natStrAux, b3]
  rw [d1] at e2
  rw [d2] at e1
  simp only [natStr, String.length, String.mk]
  rw [e3, e2, e1, e0]

/-- Numbers below 100 pad to exactly two characters. -/
theorem padTwo_length : ∀ n, n < 100 → (padTwo n).length = 2 := by decide

/-- The first ten characters of `toISOString` are exactly the
`formatDateForSearch` rendering, for a four-digit year and in-range month
and day. -/
theorem isoDatePart_toISOString (d : JSDate) (hy1 : 1000 ≤ d.year)
    (hy2 : d.year < 10000) (hm : d.month0 < 12) (hd : d.day < 100) :
    isoDatePart (toISOString d) = formatDateForSearch d := by
  have hA : (natStr d.year).length = 4 := natStr_length_four d.year hy1 hy2
  have hpf : padFour d.year = natStr d.year := by
    simp [padFour, hA]
  have hB : (padTwo (d.month0 + 1)).length = 2 := padTwo_length _ (by omega)
  have hC : (padTwo d.day).length = 2 := padTwo_length _ hd
  apply String.ext
  simp only [isoDatePart, toISOString, formatDateForSearch, hpf, String.toList]
  simp only [String.length] at hA hB hC
  simp [String.data_append, List.take_append_eq_append_take, hA, hB, hC,
    List.take_of_length_le, List.length_append]

/-- C4: the task built by `addTask` carries a `dateAdded` equal to the
`YYYY-MM-DD` date-part of its own `createdAt`, and a `dayAdded` equal to the
weekday name of that same calendar date; all three fields are derived in one
construction step from the single `now` value (`createdAt` is its ISO
rendering, `dateAdded` its date rendering). -/
theorem c4_addTask_date_consistency (taskData : TaskFormData) (newId : String)
    (now : JSDate) (tasks : List Task)
    (hy1 : 1000 ≤ now.year) (hy2 : now.year < 10000)
    (hm : now.month0 < 12) (hd : now.day < 100) :
    (addTask taskData newId now tasks).1.dateAdded =
      isoDatePart (addTask taskData newId now tasks).1.createdAt ∧
    (addTask taskData newId now tasks).1.dayAdded =
      weekdayName (dayOfWeek now.year (now.month0 + 1) now.day) ∧
    (addTask taskData newId now tasks).1.createdAt = toISOString now ∧
    (addTask taskData newId now tasks).1.dateAdded = formatDateForSearch now := by
  refine ⟨?_, rfl, rfl, rfl⟩
  show formatDateForSearch now = isoDatePart (toISOString now)
  exact (isoDatePart_toISOString now hy1 hy2 hm hd).symm

/-- C4 witness: a concrete creation on 2024-01-15 (a Monday). -/
theorem c4_addTask_date_consistency_witness :
    (addTask ⟨"buy milk", none, none, none⟩ "id1" ⟨2024, 0, 15, 10, 30, 0, 0⟩ []).1.dateAdded =
      isoDatePart (addTask ⟨"buy milk", none, none, none⟩ "id1"
        ⟨2024, 0, 15, 10, 30, 0, 0⟩ []).1.createdAt ∧
    (addTask ⟨"buy milk", none, none, none⟩ "id1" ⟨2024, 0, 15, 10, 30, 0, 0⟩ []).1.dayAdded =
      weekdayName (dayOfWeek 2024 (0 + 1) 15) ∧
    (addTask ⟨"buy milk", none, none, none⟩ "id1" ⟨2024, 0, 15, 10, 30, 0, 0⟩ []).1.createdAt =
      toISOString ⟨2024, 0, 15, 10, 30, 0, 0⟩ ∧
    (addTask ⟨"buy milk", none, none, none⟩ "id1" ⟨2024, 0, 15, 10, 30, 0, 0⟩ []).1.dateAdded =
      formatDateForSearch ⟨2024, 0, 15, 10, 30, 0, 0⟩ :=
  c4_addTask_date_consistency ⟨"buy milk", none, none, none⟩ "id1"
    ⟨2024, 0, 15, 10, 30, 0, 0⟩ [] (by decide) (by decide) (by decide) (by decide)

/-- Packing a small scalar value round-trips through `Char.ofNat`. -/
theorem toNat_ofNat_small (n : Nat) (h : n < 55296) : (Char.ofNat n).toNat = n := by
  have hv : n.isValidChar := Or.inl h
  simp [Char.ofNat, dif_pos hv, Char.ofNatAux, Char.toNat, UInt32.toNat,
    BitVec.toNat_ofNatLt]

/-- Lowercasing maps whitespace to itself and non-whitespace to
non-whitespace. -/
theorem isJsWs_lowerChar (c : Char) : isJsWs (lowerChar c) = isJsWs c := by
  unfold lowerChar
  by_cases h : 65 ≤ c.toNat && c.toNat ≤ 90
  · simp only [h, if_true]
    have hb : 65 ≤ c.toNat ∧ c.toNat ≤ 90 := by simpa using h
    have hv : (Char.ofNat (c.toNat + 32)).toNat = c.toNat + 32 :=
      toNat_ofNat_small (c.toNat + 32) (by omega)
    rw [Bool.eq_iff_iff]
    simp only [isJsWs, hv, Bool.or_eq_true, beq_iff_eq]
    omega
  · simp [h]

/-- The head surviving `dropWhile` fails the predicate. -/
theorem dropWhile_head_not {α : Type} (p : α → Bool) :
    ∀ (l : List α) (c : α) (cs : List α), l.dropWhile p = c :: cs → p c = false := by
  intro l
  induction l with
  | nil => intro c cs h; simp at h
  | cons x xs ih =>
    intro c cs h
    rw [List.dropWhile_cons] at h
    by_cases hx : p x
    · exact ih c cs (by simpa [hx] using h)
    · have hxc : x = c := by simpa [hx] using congrArg (·.head?) h
      simpa [hxc] using hx

/-- Because `dropWhile` only removes leading predicate-satisfying elements,
every element failing the predicate survives it. -/
theorem mem_dropWhile_of_mem {α : Type} (p : α → Bool) :
    ∀ (l : List α) (c : α), c ∈ l → p c = false → c ∈ l.dropWhile p := by
  intro l
  induction l with
  | nil => intro c h; simp at h
  | cons x xs ih =>
    intro c hc hnc
    rw [List.dropWhile_cons]
    by_cases hx : p x
    · simp only [hx, if_true]
      rcases List.mem_cons.mp hc with rfl | hmem
      · rw [hx] at hnc; cases hnc
      · exact ih c hmem hnc
    · simpa [hx] using hc

/-- Dropping distributes over appending a non-matching final element. -/
theorem dropWhile_append_single {α : Type} (p : α → Bool) (c : α)
    (hc : p c = false) :
    ∀ u : List α, (u ++ [c]).dropWhile p = u.dropWhile p ++ [c] := by
  intro u
  induction u with
  | nil => simp [List.dropWhile_cons, hc]
  | cons x xs ih =>
    simp only [List.cons_append, List.dropWhile_cons]
    by_cases hx : p x
    · simpa [hx] using ih
    · simp [hx]

/-- Trimming produces the empty list exactly for all-whitespace input. -/
theorem trimChars_eq_nil_iff (l : List Char) :
    trimChars l = [] ↔ ∀ c ∈ l, isJsWs c = true := by
  constructor
  · intro h
    by_contra hall
    push_neg at hall
    obtain ⟨c, hcmem, hcne⟩ := hall
    have hcns : isJsWs c = false := by
      cases hw : isJsWs c
      · rfl
      · exact absurd hw hcne
    have h1 : c ∈ l.dropWhile isJsWs := mem_dropWhile_of_mem isJsWs l c hcmem hcns
    have h2 : c ∈ (l.dropWhile isJsWs).reverse := List.mem_reverse.mpr h1
    have h3 : c ∈ ((l.dropWhile isJsWs).reverse.dropWhile isJsWs) :=
      mem_dropWhile_of_mem isJsWs _ c h2 hcns
    have h4 : c ∈ trimChars l := List.mem_reverse.mpr h3
    rw [h] at h4
    simp at h4
  · intro h
    have h1 : l.dropWhile isJsWs = [] := List.dropWhile_eq_nil_iff.mpr h
    simp [trimChars, h1]

/-- The first character of a trimmed list is not whitespace. -/
theorem trimChars_head_not_ws (l : List Char) (c : Char) (cs : List Char)
    (h : trimChars l = c :: cs) : isJsWs c = false := by
  cases hd1 : l.dropWhile isJsWs with
  | nil => simp [trimChars, hd1] at h
  | cons hd rest =>
    have hhd : isJsWs hd = false := dropWhile_head_not isJsWs l hd rest hd1
    have hform : trimChars l = hd :: ((rest.reverse.dropWhile isJsWs).reverse) := by
      simp only [trimChars, hd1, List.reverse_cons]
      rw [dropWhile_append_single isJsWs hd hhd rest.reverse]
      simp
    rw [hform] at h
    have : hd = c := (List.cons.injEq _ _ _ _ ▸ h).1
    rw [← this]
    exact hhd

/-- The last character of a trimmed list is not whitespace. -/
theorem trimChars_getLast_not_ws (l : List Char) (c : Char)
    (h : (trimChars l).getLast? = some c) : isJsWs c = false := by
  have h1 : ((l.dropWhile isJsWs).reverse.dropWhile isJsWs).head? = some c := by
    rw [trimChars] at h
    rwa [List.getLast?_reverse] at h
  cases hd2 : (l.dropWhile isJsWs).reverse.dropWhile isJsWs with
  | nil => rw [hd2] at h1; cases h1
  | cons d ds =>
    rw [hd2] at h1
    have : d = c := by simpa using h1
    rw [← this]
    exact dropWhile_head_not isJsWs _ d ds hd2

/-- A word in progress guarantees at least one word in the output. -/
theorem wordsAux_ne_nil_of_acc :
    ∀ (l acc : List Char), acc ≠ [] → wordsAux l acc ≠ [] := by
  intro l
  induction l with
  | nil =>
    intro acc hacc
    simp only [wordsAux]
    simp [List.isEmpty_iff, hacc]
  | cons c cs ih =>
    intro acc hacc
    simp only [wordsAux]
    by_cases hw : isJsWs c
    · simp only [hw, if_true]
      by_cases he : acc.isEmpty
      · rw [List.isEmpty_iff] at he
        exact absurd he hacc
      · simp [he]
    · simp only [hw, if_false]
      exact ih (c :: acc) (by simp)

/-- A non-whitespace character anywhere guarantees at least one word. -/
theorem wordsAux_ne_nil_of_mem :
    ∀ (l : List Char) (c : Char), c ∈ l → isJsWs c = false →
      ∀ acc, wordsAux l acc ≠ [] := by
  intro l
  induction l with
  | nil => intro c h; simp at h
  | cons x xs ih =>
    intro c hc hnw acc
    simp only [wordsAux]
    by_cases hx : isJsWs x
    · have hcx : c ∈ xs := by
        rcases List.mem_cons.mp hc with rfl | hm
        · rw [hx] at hnw; cases hnw
        · exact hm
      by_cases he : acc.isEmpty
      · simp only [hx, if_true, he, if_true]
        exact ih c hcx hnw []
      · simp [hx, he]
    · simp only [hx, if_false]
      exact wordsAux_ne_nil_of_acc xs (x :: acc) (by simp)

/-- On whitespace-free input the splitter yields the single accumulated
word (or nothing when there is nothing at all). -/
theorem wordsAux_no_ws :
    ∀ (l : List Char), (∀ c ∈ l, isJsWs c = false) →
      ∀ acc, wordsAux l acc =
        if acc.reverse ++ l = [] then [] else [String.mk (acc.reverse ++ l)] := by
  intro l
  induction l with
  | nil =>
    intro _ acc
    by_cases he : acc = []
    · simp [wordsAux, he]
    · simp [wordsAux, List.isEmpty_iff, he]
  | cons c cs ih =>
    intro hall acc
    have hc : isJsWs c = false := hall c (List.mem_cons_self c cs)
    simp only [wordsAux, hc, if_false]
    rw [ih (fun d hd => hall d (List.mem_cons_of_mem c hd)) (c :: acc)]
    simp

/-- A whitespace character inside the input together with a non-whitespace
final character forces at least two words (given a word in progress). -/
theorem wordsAux_two_le :
    ∀ (l acc : List Char), acc ≠ [] →
      (∃ c ∈ l, isJsWs c = true) →
      (∀ z, l.getLast? = some z → isJsWs z = false) →
      2 ≤ (wordsAux l acc).length := by
  intro l
  induction l with
  | nil =>
    intro acc _ hex _
    simp at hex
  | cons c cs ih =>
    intro acc hacc hex hlast
    simp only [wordsAux]
    cases hw : isJsWs c with
    | true =>
      have hne : acc.isEmpty = false := by simp [List.isEmpty_iff, hacc]
      simp only [if_true, hne, Bool.false_eq_true, if_false, List.length_cons]
      cases hcs : cs with
      | nil =>
        exfalso
        have hcl := hlast c (by rw [hcs]; rfl)
        rw [hcl] at hw
        cases hw
      | cons d ds =>
        have hzsome : (d :: ds).getLast?.isSome := by
          cases hg : (d :: ds).getLast? with
          | none => simp [List.getLast?_eq_none_iff] at hg
          | some z => rfl
        obtain ⟨z, hz⟩ := Option.isSome_iff_exists.mp hzsome
        have hzn : isJsWs z = false := by
          apply hlast z
          rw [hcs]
          exact hz
        have hzm : z ∈ d :: ds := List.mem_of_mem_getLast? hz
        have hnn : wordsAux (d :: ds) [] ≠ [] :=
          wordsAux_ne_nil_of_mem (d :: ds) z hzm hzn []
        have hone : 1 ≤ (wordsAux (d :: ds) []).length := by
          cases hww : wordsAux (d :: ds) [] with
          | nil => exact absurd hww hnn
          | cons _ _ => simp
        omega
    | false =>
      simp only [Bool.false_eq_true, if_false]
      obtain ⟨x, hx, hxw⟩ := hex
      have hxcs : x ∈ cs := by
        rcases List.mem_cons.mp hx with h1 | hm
        · exfalso
          rw [h1, hw] at hxw
          cases hxw
        · exact hm
      cases hcs : cs with
      | nil => rw [hcs] at hxcs; simp at hxcs
      | cons d ds =>
        subst hcs
        apply ih (c :: acc) (by simp)
        · exact ⟨x, hxcs, hxw⟩
        · intro z hz
          exact hlast z hz

/-- A non-blank trimmed string splits into at least one word. -/
theorem splitWords_jsTrim_ne_nil (s : String) (h : jsTrim s ≠ "") :
    splitWords (jsTrim s) ≠ [] := by
  have hlist : trimChars s.toList ≠ [] := by
    intro he
    apply h
    show String.mk (trimChars s.toList) = ""
    rw [he]
  cases hl : trimChars s.toList with
  | nil => exact absurd hl hlist
  | cons c cs =>
    have hc : isJsWs c = false := trimChars_head_not_ws s.toList c cs hl
    show wordsAux (jsTrim s).toList [] ≠ []
    have htl : (jsTrim s).toList = c :: cs := hl
    rw [htl]
    simp only [wordsAux, hc, Bool.false_eq_true, if_false]
    exact wordsAux_ne_nil_of_acc cs [c] (by simp)

/-- When a trimmed string splits into exactly one word, that word is the
whole trimmed string. -/
theorem splitWords_jsTrim_singleton (s w : String)
    (h : splitWords (jsTrim s) = [w]) : w = jsTrim s := by
  cases hl : trimChars s.toList with
  | nil =>
    exfalso
    have hnil : splitWords (jsTrim s) = [] := by
      show wordsAux (jsTrim s).toList [] = []
      have htl : (jsTrim s).toList = [] := hl
      rw [htl]
      rfl
    rw [hnil] at h
    cases h
  | cons c cs =>
    have hc : isJsWs c = false := trimChars_head_not_ws s.toList c cs hl
    have htl : (jsTrim s).toList = c :: cs := hl
    by_cases hex : ∃ x ∈ c :: cs, isJsWs x = true
    · exfalso
      obtain ⟨x, hx, hxw⟩ := hex
      have hxcs : x ∈ cs := by
        rcases List.mem_cons.mp hx with rfl | hm
        · rw [hc] at hxw; cases hxw
        · exact hm
      have hlastAll : ∀ z, (c :: cs).getLast? = some z → isJsWs z = false := by
        intro z hz
        refine trimChars_getLast_not_ws s.toList z ?_
        rw [hl]
        exact hz
      cases hcs : cs with
      | nil => rw [hcs] at hxcs; simp at hxcs
      | cons d ds =>
        have h2 : 2 ≤ (wordsAux (d :: ds) [c]).length := by
          apply wordsAux_two_le (d :: ds) [c] (by simp)
          · rw [hcs] at hxcs
            exact ⟨x, hxcs, hxw⟩
          · intro z hz
            apply hlastAll z
            rw [hcs]
            exact hz
        have hsw : splitWords (jsTrim s) = wordsAux (d :: ds) [c] := by
          show wordsAux (jsTrim s).toList [] = _
          rw [htl, hcs]
          simp [wordsAux, hc]
        rw [hsw] at h
        rw [h] at h2
        simp at h2
    · push_neg at hex
      have hall : ∀ x ∈ c :: cs, isJsWs x = false := by
        intro x hx
        cases hv : isJsWs x
        · rfl
        · exact absurd hv (hex x hx)
      have hone : splitWords (jsTrim s) = [String.mk (c :: cs)] := by
        show wordsAux (jsTrim s).toList [] = _
        rw [htl, wordsAux_no_ws (c :: cs) hall []]
        simp
      rw [hone] at h
      have hw : w = String.mk (c :: cs) := by
        injection h with h1 h2
        exact h1.symm
      rw [hw, ← htl]
      rfl

/-- Trimming commutes with lowercasing. -/
theorem trimChars_map_lower (l : List Char) :
    trimChars (l.map lowerChar) = (trimChars l).map lowerChar := by
  have hfun : (isJsWs ∘ lowerChar) = isJsWs := funext isJsWs_lowerChar
  simp only [trimChars, List.dropWhile_map, hfun, ← List.map_reverse]

/-- A string is all-whitespace exactly when its lowercasing is. -/
theorem jsTrim_toLower_empty_iff (s : String) :
    jsTrim (jsToLower s) = "" ↔ jsTrim s = "" := by
  have key : ∀ t : String, jsTrim t = "" ↔ trimChars t.toList = [] := by
    intro t
    constructor
    · intro h
      exact congrArg String.data h
    · intro h
      show String.mk (trimChars t.toList) = ""
      rw [h]
  rw [key, key]
  have hml : (jsToLower s).toList = s.toList.map lowerChar := rfl
  rw [hml, trimChars_map_lower]
  simp

/-- Lowercasing cannot blank out a non-blank string. -/
theorem jsTrim_toLower_ne_empty (s : String) (h : jsTrim s ≠ "") :
    jsTrim (jsToLower s) ≠ "" :=
  fun he => h ((jsTrim_toLower_empty_iff s).mp he)

/-- For a non-blank query, the source's per-task match test coincides with
the claim-side predicate: with several words both use the conjunctive
haystack test over the same word list, and with exactly one word the word
is the whole lowercased trimmed query, making the field-list tests agree. -/
theorem taskMatchesQuery_eq_spec (searchQuery : String) (t : Task)
    (hq : jsTrim searchQuery ≠ "") :
    taskMatchesQuery (jsTrim (jsToLower searchQuery))
      (splitWords (jsTrim (jsToLower searchQuery))) t =
    specQueryMatch searchQuery t := by
  have hq' : jsTrim (jsToLower searchQuery) ≠ "" := jsTrim_toLower_ne_empty _ hq
  cases hws : splitWords (jsTrim (jsToLower searchQuery)) with
  | nil => exact absurd hws (splitWords_jsTrim_ne_nil _ hq')
  | cons w ws' =>
    cases ws' with
    | nil =>
      have hw : w = jsTrim (jsToLower searchQuery) :=
        splitWords_jsTrim_singleton _ w hws
      simp only [specQueryMatch, hws, taskMatchesQuery, List.length_cons,
        List.length_nil]
      rw [if_neg (by omega)]
      rw [hw]
      rfl
    | cons w2 rest =>
      simp only [specQueryMatch, hws, taskMatchesQuery, specMultiWordMatch]
      rw [if_pos (by simp)]

/-- C2: for every collection and non-blank query, `searchTasks` keeps, among
the status-eligible tasks, exactly those matching the claim's predicate:
with more than one query word, every word must occur in the lowercased
space-joined concatenation of title, description, name, role, `dateAdded`
and `dayAdded`; with exactly one word, the word must occur in the lowercased
title, name, role or description, the `dateAdded` string as-is, the
lowercased `dayAdded`, or the `YYYY-MM-DD` date-part of `createdAt`. -/
theorem c2_search_nonblank (searchQuery : String) (showCompleted showPending : Bool)
    (tasks : List Task) (hq : jsTrim searchQuery ≠ "") :
    searchTasksCompute searchQuery showCompleted showPending tasks =
      (tasks.filter (statusKeep showCompleted showPending)).filter
        (specQueryMatch searchQuery) := by
  have hq' : jsTrim (jsToLower searchQuery) ≠ "" := jsTrim_toLower_ne_empty _ hq
  have hbeq : (jsTrim searchQuery == "") = false := by
    cases hb : jsTrim searchQuery == ""
    · rfl
    · exact absurd (eq_of_beq hb) hq
  have hbeq' : (jsTrim (jsToLower searchQuery) == "") = false := by
    cases hb : jsTrim (jsToLower searchQuery) == ""
    · rfl
    · exact absurd (eq_of_beq hb) hq'
  simp only [searchTasksCompute, hbeq, Bool.false_and, Bool.false_eq_true, if_false]
  rw [List.filter_filter]
  apply List.filter_congr
  intro t _
  simp only [hbeq', Bool.false_eq_true, if_false]
  cases h1 : (!showCompleted && t.isCompleted) with
  | true => simp [statusKeep, h1]
  | false =>
    cases h2 : (!showPending && !t.isCompleted) with
    | true => simp [statusKeep, h1, h2]
    | false =>
      simp only [statusKeep, h1, h2, Bool.false_eq_true, if_false]
      rw [taskMatchesQuery_eq_spec searchQuery t hq]
      simp

/-- C2 witness: the multi-word query "bug in code" keeps exactly the task
whose combined text contains all three words. -/
theorem c2_search_nonblank_witness :
    jsTrim "bug in code" ≠ "" ∧
    searchTasksCompute "bug in code" true true
      [mkTask "1" "Fix bug" "found in the code review" "" "" false "c" "u"
        "2024-01-15" "Monday",
       mkTask "2" "Write docs" "" "" "" false "c" "u" "2024-01-16" "Tuesday"] =
      ([mkTask "1" "Fix bug" "found in the code review" "" "" false "c" "u"
          "2024-01-15" "Monday",
        mkTask "2" "Write docs" "" "" "" false "c" "u" "2024-01-16"
          "Tuesday"].filter (statusKeep true true)).filter
        (specQueryMatch "bug in code") :=
  ⟨by decide,
   c2_search_nonblank "bug in code" true true
     [mkTask "1" "Fix bug" "found in the code review" "" "" false "c" "u"
       "2024-01-15" "Monday",
      mkTask "2" "Write docs" "" "" "" false "c" "u" "2024-01-16" "Tuesday"]
     (by decide)⟩

/-- C5: for a blank query, `searchTasks` returns exactly the status-filtered
collection — the full collection when both flags are true (completed tasks
are dropped when `showCompleted` is false, pending ones when `showPending`
is false) — and in particular `searchTasks("", true, false)` returns exactly
the completed tasks. -/
theorem c5_search_blank (searchQuery : String) (showCompleted showPending : Bool)
    (tasks : List Task) (hq : jsTrim searchQuery = "") :
    searchTasksCompute searchQuery showCompleted showPending tasks =
      tasks.filter (statusKeep showCompleted showPending) ∧
    (showCompleted = true → showPending = true →
      searchTasksCompute searchQuery showCompleted showPending tasks = tasks) ∧
    searchTasksCompute "" true false tasks =
      tasks.filter (fun t => t.isCompleted) := by
  have hbeq : (jsTrim searchQuery == "") = true := by
    rw [hq]
    rfl
  have hq2 : jsTrim (jsToLower searchQuery) = "" :=
    (jsTrim_toLower_empty_iff searchQuery).mpr hq
  have hbeq2 : (jsTrim (jsToLower searchQuery) == "") = true := by
    rw [hq2]
    rfl
  refine ⟨?_, ?_, ?_⟩
  · simp only [searchTasksCompute, hbeq, Bool.true_and]
    cases hc : showCompleted with
    | true =>
      cases hp : showPending with
      | true =>
        simp only [Bool.true_and, if_true]
        have : ∀ t ∈ tasks, statusKeep true true t = true := by
          intro t _
          rfl
        rw [List.filter_congr this, List.filter_true]
      | false =>
        simp only [Bool.and_false, Bool.false_eq_true, if_false]
        apply List.filter_congr
        intro t _
        simp only [hbeq2, if_true, statusKeep]
    | false =>
      simp only [Bool.false_and, Bool.false_eq_true, if_false]
      apply List.filter_congr
      intro t _
      simp only [hbeq2, if_true, statusKeep]
  · intro hc hp
    subst hc
    subst hp
    simp [searchTasksCompute, hbeq]
  · have h0 : (jsTrim (jsToLower "") == "") = true := by decide
    simp only [searchTasksCompute]
    rw [if_neg (by simp)]
    apply List.filter_congr
    intro t _
    cases hdone : t.isCompleted with
    | true => simp [hdone, h0]
    | false => simp [hdone, h0]

/-- C5 witness: a blank (whitespace-only) query with a two-task collection,
one completed and one pending. -/
theorem c5_search_blank_witness :
    searchTasksCompute " " false true
      [mkTask "1" "a" "" "" "" true "c" "u" "d" "w",
       mkTask "2" "b" "" "" "" false "c" "u" "d" "w"] =
      [mkTask "1" "a" "" "" "" true "c" "u" "d" "w",
       mkTask "2" "b" "" "" "" false "c" "u" "d" "w"].filter
        (statusKeep false true) ∧
    (false = true → true = true →
      searchTasksCompute " " false true
        [mkTask "1" "a" "" "" "" true "c" "u" "d" "w",
         mkTask "2" "b" "" "" "" false "c" "u" "d" "w"] =
        [mkTask "1" "a" "" "" "" true "c" "u" "d" "w",
         mkTask "2" "b" "" "" "" false "c" "u" "d" "w"]) ∧
    searchTasksCompute "" true false
      [mkTask "1" "a" "" "" "" true "c" "u" "d" "w",
       mkTask "2" "b" "" "" "" false "c" "u" "d" "w"] =
      [mkTask "1" "a" "" "" "" true "c" "u" "d" "w",
       mkTask "2" "b" "" "" "" false "c" "u" "d" "w"].filter
        (fun t => t.isCompleted) :=
  c5_search_blank " " false true
    [mkTask "1" "a" "" "" "" true "c" "u" "d" "w",
     mkTask "2" "b" "" "" "" false "c" "u" "d" "w"] (by decide)

end TaskManager
